import Mathlib

/-!
Verification of the `nested_map` crate: a 256-radix trie map
(`src/table.rs`, `src/nested_map.rs`), embedded sequentially.
Slots are modelled as `Fin 256 → Bucket`, the null pointer as the
`Bucket.null` constructor, and each CAS of the single-threaded
execution succeeds, so every operation is a pure state transformer.
-/

set_option autoImplicit false

namespace NestedMapModel

/-- Modelled from the spec: `src/sponge.rs` is absent from the sources, so the
Sponge is taken from spec §3/§4.1: it carries a hashed digest of the key and a
cursor; `squeeze` emits the digest byte at the cursor and advances the cursor;
`matching(other)` fast-forwards the cursor to `other`'s cursor; `new(key)`
initialises the digest from the key's hash with the cursor at the start. The
digest is modelled as an arbitrary byte stream `Nat → Fin 256` supplied by a
hash family `H : K → Nat → Fin 256`. -/
structure Sponge where
  digest : Nat → Fin 256
  cursor : Nat

/-- The byte returned by `squeeze` (spec §4.1). -/
def Sponge.out (s : Sponge) : Fin 256 := s.digest s.cursor

/-- The sponge after `squeeze` advanced the cursor (spec §4.1). -/
def Sponge.adv (s : Sponge) : Sponge := ⟨s.digest, s.cursor + 1⟩

/-- Modelled from the spec: `Sponge::new(key)` (spec §4.1), for hash family `H`. -/
def Sponge.new {K : Type} (H : K → Nat → Fin 256) (key : K) : Sponge := ⟨H key, 0⟩

/-- Modelled from the spec: `Sponge::matching(other)` fast-forwards this
sponge's cursor to `other`'s cursor (spec §4.1). -/
def Sponge.matching (s other : Sponge) : Sponge := ⟨s.digest, other.cursor⟩

/-- `Entry` from `src/table.rs` lines 10-13: a key and an optional value. -/
structure Entry (K V : Type) where
  key : K
  value : Option V

/-- `Bucket` from `src/table.rs` lines 15-18, together with the null pointer
that represents an empty slot (`Atomic::null`): a slot holds null, a leaf
entry, or a branch table. The branch's table is inlined as its slot
function. -/
inductive Bucket (K V : Type) where
  | null : Bucket K V
  | leaf : Entry K V → Bucket K V
  | branch : (Fin 256 → Bucket K V) → Bucket K V

/-- `Table` from `src/table.rs` lines 21-24: 256 slots, each a nullable bucket. -/
def Table (K V : Type) := Fin 256 → Bucket K V

/-- `Table::default` (`src/table.rs` lines 201-207): 256 null slots. -/
def Table.default {K V : Type} : Table K V := fun _ => Bucket.null

/-- A store to one slot of a table (`buckets[i].store(b)` / a successful CAS). -/
def setSlot {K V : Type} (t : Table K V) (i : Fin 256) (b : Bucket K V) : Table K V :=
  fun j => if j = i then b else t j

/-- `Bucket::get_key` (`src/table.rs` lines 27-32). -/
def Bucket.get_key {K V : Type} : Bucket K V → Option K
  | .leaf e => some e.key
  | _ => none

/-- `Bucket::into_value` (`src/table.rs` lines 33-43): `Ok` of the leaf's value
when present, `Err(())` for a value-less leaf or a branch. -/
def Bucket.into_value {K V : Type} : Bucket K V → Except Unit V
  | .leaf e =>
    match e.value with
    | none => .error ()
    | some v => .ok v
  | _ => .error ()

/-- `Table::with_two_entries` (`src/table.rs` lines 49-71), with explicit
recursion fuel (`none` = the recursion would run deeper than `fuel`): squeeze
both sponges; on distinct indices store the two buckets at their slots, on a
collision store a branch built one level deeper at the shared slot. -/
def Table.with_two_entries {K V : Type} :
    Nat → Bucket K V → Sponge → Bucket K V → Sponge → Option (Table K V)
  | 0, _, _, _, _ => none
  | fuel + 1, entry1, sponge1, entry2, sponge2 =>
    let idx1 := sponge1.out
    let idx2 := sponge2.out
    if idx1 ≠ idx2 then
      some (setSlot (setSlot Table.default idx1 entry1) idx2 entry2)
    else
      (Table.with_two_entries fuel entry1 sponge1.adv entry2 sponge2.adv).map
        (fun t => setSlot Table.default idx1 (Bucket.branch t))

variable {K V : Type} [DecidableEq K]

/-- The body of `Table::lookup` (`src/table.rs` lines 74-95) acting on the
bucket loaded from the squeezed slot: null is absent, a leaf answers by user
key equality (a `None` value is absent), a branch squeezes again and recurses
into the child slot. -/
def Bucket.lookup : Bucket K V → K → Sponge → Option V
  | .null, _, _ => none
  | .leaf e, key, _ =>
    if key = e.key then
      match e.value with
      | none => none
      | some v => some v
    else none
  | .branch buckets, key, sponge => Bucket.lookup (buckets sponge.out) key sponge.adv

/-- `Table::lookup` (`src/table.rs` lines 74-95): squeeze once, then dispatch
on the loaded bucket. -/
def Table.lookup (t : Table K V) (key : K) (sponge : Sponge) : Option V :=
  Bucket.lookup (t sponge.out) key sponge.adv

/-- The body of `Table::insert` (`src/table.rs` lines 101-167) acting on the
bucket loaded from the squeezed slot, sequentially (every CAS succeeds), with
the fuel of `with_two_entries` threaded through. The result pairs the
returned displaced value with the new content of the slot:
null is replaced by the new leaf; a branch recurses; a leaf with the same key
is replaced (returning `into_value` of the old leaf as an `Option`); a leaf
with a different key is replaced by a branch from `with_two_entries`, using a
fresh sponge for the old key fast-forwarded by `matching`. -/
def Bucket.insert (H : K → Nat → Fin 256) (fuel : Nat) :
    Bucket K V → Entry K V → Sponge → Option (Option V × Bucket K V)
  | .null, e, _ => some (none, .leaf e)
  | .leaf e2, e, sponge =>
    if e.key = e2.key then
      some ((Bucket.leaf e2).into_value.toOption, .leaf e)
    else
      (Table.with_two_entries fuel (.leaf e) sponge (.leaf e2)
          ((Sponge.new H e2.key).matching sponge)).map
        (fun t => (none, .branch t))
  | .branch buckets, e, sponge =>
    (Bucket.insert H fuel (buckets sponge.out) e sponge.adv).map
      (fun rb => (rb.1, .branch (setSlot buckets sponge.out rb.2)))

/-- `Table::insert` (`src/table.rs` lines 101-167): squeeze once, then
dispatch on the loaded bucket; the slot receives the resulting bucket. -/
def Table.insert (H : K → Nat → Fin 256) (fuel : Nat) (t : Table K V)
    (entry : Entry K V) (sponge : Sponge) : Option (Option V × Table K V) :=
  (Bucket.insert H fuel (t sponge.out) entry sponge.adv).map
    (fun rb => (rb.1, setSlot t sponge.out rb.2))

/-- The body of `Table::delete` (`src/table.rs` lines 169-198) acting on the
bucket loaded from the squeezed slot, sequentially: null returns `Err`, a
branch recurses, and a leaf — with no comparison of its key against the
requested key — is replaced by null and its `into_value` returned. -/
def Bucket.delete : Bucket K V → K → Sponge → Except Unit V × Bucket K V
  | .null, _, _ => (.error (), .null)
  | .leaf e, _, _ => ((Bucket.leaf e).into_value, .null)
  | .branch buckets, key, sponge =>
    let rb := Bucket.delete (buckets sponge.out) key sponge.adv
    (rb.1, .branch (setSlot buckets sponge.out rb.2))

/-- `Table::delete` (`src/table.rs` lines 169-198): squeeze once, then
dispatch on the loaded bucket; the slot receives the resulting bucket. -/
def Table.delete (t : Table K V) (key : K) (sponge : Sponge) :
    Except Unit V × Table K V :=
  let rb := Bucket.delete (t sponge.out) key sponge.adv
  (rb.1, setSlot t sponge.out rb.2)

/-- `NestedMap` (`src/nested_map.rs` lines 29-32): the root table. -/
structure NestedMap (K V : Type) where
  root : Table K V

/-- `NestedMap::new` (`src/nested_map.rs` lines 41-45). -/
def NestedMap.new : NestedMap K V := ⟨Table.default⟩

/-- `NestedMap::lookup` (`src/nested_map.rs` lines 48-50): fresh sponge,
delegate to the root table. -/
def NestedMap.lookup (H : K → Nat → Fin 256) (m : NestedMap K V) (key : K) :
    Option V :=
  Table.lookup m.root key (Sponge.new H key)

/-- `NestedMap::insert` (`src/nested_map.rs` lines 56-67): wrap the pair in a
leaf whose value is `Some`, fresh sponge, delegate to the root table. -/
def NestedMap.insert (H : K → Nat → Fin 256) (fuel : Nat) (m : NestedMap K V)
    (key : K) (val : V) : Option (Option V × NestedMap K V) :=
  (Table.insert H fuel m.root ⟨key, some val⟩ (Sponge.new H key)).map
    (fun rt => (rt.1, ⟨rt.2⟩))

/-- `NestedMap::delete` (`src/nested_map.rs` lines 72-74): fresh sponge,
delegate to the root table. -/
def NestedMap.delete (H : K → Nat → Fin 256) (m : NestedMap K V) (key : K) :
    Except Unit V × NestedMap K V :=
  let rt := Table.delete m.root key (Sponge.new H key)
  (rt.1, ⟨rt.2⟩)

/-- A single-threaded public operation on the map (spec §8, "functional
correctness"): insert, delete, or lookup of a key. -/
inductive Op (K V : Type) where
  | ins : K → V → Op K V
  | del : K → Op K V
  | look : K → Op K V

instance {E A : Type} [DecidableEq E] [DecidableEq A] : DecidableEq (Except E A) :=
  fun a b =>
    match a, b with
    | .error e, .error f => decidable_of_iff (e = f) (by simp)
    | .ok x, .ok y => decidable_of_iff (x = y) (by simp)
    | .error _, .ok _ => isFalse (by simp)
    | .ok _, .error _ => isFalse (by simp)

/-- The result one operation reports to its caller: the displaced value of an
insert, the `Result` of a delete, or the value found by a lookup. -/
inductive OpResult (V : Type) where
  | insR : Option V → OpResult V
  | delR : Except Unit V → OpResult V
  | lookR : Option V → OpResult V
  deriving DecidableEq

/-- Run one operation on the map, returning its result and the new map
(`none` when an insert exceeds the `with_two_entries` fuel). -/
def applyOp (H : K → Nat → Fin 256) (fuel : Nat) (m : NestedMap K V) :
    Op K V → Option (OpResult V × NestedMap K V)
  | .ins k v => (NestedMap.insert H fuel m k v).map (fun rm => (.insR rm.1, rm.2))
  | .del k =>
    let rm := NestedMap.delete H m k
    some (.delR rm.1, rm.2)
  | .look k => some (.lookR (NestedMap.lookup H m k), m)

/-- Run a sequence of operations on the map, collecting every result. -/
def runOps (H : K → Nat → Fin 256) (fuel : Nat) :
    NestedMap K V → List (Op K V) → Option (List (OpResult V) × NestedMap K V)
  | m, [] => some ([], m)
  | m, op :: ops =>
    (applyOp H fuel m op).bind fun rm =>
      (runOps H fuel rm.2 ops).map fun rsm => (rm.1 :: rsm.1, rsm.2)

/-- The reference (mathematical) key-value mapping of spec §8. -/
def RefMap (K V : Type) := K → Option V

/-- One operation on the reference mapping: insert stores the value and
reports the previous binding, delete removes the binding and reports it
(`Err` when absent), lookup reports the binding. -/
def refApply (m : RefMap K V) : Op K V → OpResult V × RefMap K V
  | .ins k v => (.insR (m k), fun j => if j = k then some v else m j)
  | .del k =>
    match m k with
    | none => (.delR (.error ()), m)
    | some v => (.delR (.ok v), fun j => if j = k then none else m j)
  | .look k => (.lookR (m k), m)

/-- Run a sequence of operations on the reference mapping. -/
def refRun : RefMap K V → List (Op K V) → List (OpResult V) × RefMap K V
  | m, [] => ([], m)
  | m, op :: ops =>
    let rm := refApply m op
    let rsm := refRun rm.2 ops
    (rm.1 :: rsm.1, rsm.2)

/-- A concrete hash family on natural-number keys for concrete executions:
byte `n` of key `k` is digit `n` of `k` in base 256. Keys `0` and `256` share
byte `0` and differ at byte `1`. -/
def myH : Nat → Nat → Fin 256 :=
  fun k n => ⟨k / 256 ^ n % 256, Nat.mod_lt _ (by norm_num)⟩

/-! Basic slot lemmas. -/

theorem setSlot_same {K V : Type} (t : Table K V) (i : Fin 256) (b : Bucket K V) :
    setSlot t i b i = b := by
  simp [setSlot]

theorem setSlot_other {K V : Type} (t : Table K V) (i : Fin 256) (b : Bucket K V)
    (j : Fin 256) (h : j ≠ i) : setSlot t i b j = t j := by
  simp [setSlot, h]

/-- The bucket at which a descent along the sponge's squeezed bytes
terminates: branches squeeze and recurse, null and leaves stop. -/
def Bucket.descend {K V : Type} : Bucket K V → Sponge → Bucket K V
  | .branch buckets, sponge => Bucket.descend (buckets sponge.out) sponge.adv
  | b, _ => b

theorem Bucket.lookup_eq_descend (b : Bucket K V) (key : K) (s : Sponge) :
    Bucket.lookup b key s =
      match Bucket.descend b s with
      | .leaf e => if key = e.key then e.value else none
      | _ => none := by
  induction b generalizing s with
  | null => simp [Bucket.lookup, Bucket.descend]
  | leaf e =>
    rcases hv : e.value with _ | v <;>
      simp [Bucket.lookup, Bucket.descend, hv]
  | branch buckets ih => simp [Bucket.lookup, Bucket.descend, ih]

/-- Claim C4: for every key, `Table::lookup` returns the stored value exactly
when the descent reaches a leaf whose entry's key is equal — by the user's
equality on `K`, the digest plays no role in the comparison — to the requested
key, and returns `None` when the descent ends at a null slot (or at a leaf
with a non-equal key). -/
theorem c4_lookup_exactly_at_equal_key_leaf (t : Table K V) (key : K) (s : Sponge) :
    Table.lookup t key s =
      match Bucket.descend (Bucket.branch t) s with
      | .leaf e => if key = e.key then e.value else none
      | _ => none := by
  have h := Bucket.lookup_eq_descend (t s.out) key s.adv
  simpa [Table.lookup, Bucket.descend] using h

/-- Claim C10: an insert that displaces a leaf with an equal key whose entry
value is `None` returns `None` (the displaced entry counts as absent rather
than producing `Some`), exactly as lookup treats a `None`-valued entry with an
equal key as absent. -/
theorem c10_insert_displacing_none_value (H : K → Nat → Fin 256) (fuel : Nat)
    (e e2 : Entry K V) (s : Sponge) (hk : e.key = e2.key) (hv : e2.value = none) :
    Bucket.insert H fuel (Bucket.leaf e2) e s = some (none, Bucket.leaf e)
    ∧ Bucket.lookup (Bucket.leaf e2) e.key s = none := by
  constructor
  · simp [Bucket.insert, hk, Bucket.into_value, hv, Except.toOption]
  · simp [Bucket.lookup, hk, hv]

/-- Witness for claim C10 at a concrete input. -/
theorem c10_insert_displacing_none_value_witness :
    ((⟨0, some 5⟩ : Entry Nat Nat).key = (⟨0, none⟩ : Entry Nat Nat).key)
    ∧ ((⟨0, none⟩ : Entry Nat Nat).value = none)
    ∧ (Bucket.insert myH 1 (Bucket.leaf ⟨0, none⟩) (⟨0, some 5⟩ : Entry Nat Nat)
          ⟨fun _ => 0, 0⟩ = some (none, Bucket.leaf ⟨0, some 5⟩)
      ∧ Bucket.lookup (Bucket.leaf (⟨0, none⟩ : Entry Nat Nat))
          (⟨0, some 5⟩ : Entry Nat Nat).key ⟨fun _ => 0, 0⟩ = none) :=
  ⟨rfl, rfl,
    c10_insert_displacing_none_value myH 1 ⟨0, some 5⟩ ⟨0, none⟩ ⟨fun _ => 0, 0⟩ rfl rfl⟩

/-- Claim C1 fails on the code: `Table::delete` (`src/table.rs` line 180)
matches `Bucket::Leaf(_)` without comparing the leaf's key to the requested
key. Deleting key `256` from a table whose slot `myH 256 0` holds the leaf
`(0, 5)` — a non-equal key, since `0 ≠ 256` — returns `Ok 5` instead of
`NotFound`, and nulls the slot instead of leaving the map unchanged. -/
theorem c1_delete_removes_nonequal_key :
    ((0 : Nat) ≠ 256)
    ∧ (Table.delete
        (setSlot Table.default (myH 256 0) (Bucket.leaf ⟨0, some 5⟩)) 256
        (Sponge.new myH 256)).1 = Except.ok 5
    ∧ (Table.delete
        (setSlot Table.default (myH 256 0) (Bucket.leaf ⟨0, some 5⟩)) 256
        (Sponge.new myH 256)).2 (myH 256 0) = Bucket.null :=
  ⟨by decide, rfl, rfl⟩

/-- Claim C2 fails on the code: on the single-threaded sequence
`insert 0 5; delete 256` from the empty map, the code's delete returns
`Ok 5` (it removes key 0's entry, whose digest shares byte 0 with key 256's),
while the reference mapping returns `NotFound` for the delete. -/
theorem c2_disagrees_with_reference_mapping :
    (runOps myH 2 (NestedMap.new : NestedMap Nat Nat)
        [Op.ins 0 5, Op.del 256]).map Prod.fst
      = some [OpResult.insR none, OpResult.delR (Except.ok 5)]
    ∧ (refRun (fun _ => none) [Op.ins (0 : Nat) (5 : Nat), Op.del 256]).fst
      = [OpResult.insR none, OpResult.delR (Except.error ())] := by
  constructor <;> decide

/-- Claim C3 fails on the code: in the sequence
`insert 0 5; delete 256; insert 0 7` there is no intervening `delete 0`,
yet the second insert of key 0 returns `None` instead of `Some 5`, because
the delete of the absent key 256 removed key 0's entry; the reference
mapping's second insert of key 0 returns `Some 5`. -/
theorem c3_second_insert_loses_displaced_value :
    (runOps myH 2 (NestedMap.new : NestedMap Nat Nat)
        [Op.ins 0 5, Op.del 256, Op.ins 0 7]).map Prod.fst
      = some [OpResult.insR none, OpResult.delR (Except.ok 5), OpResult.insR none]
    ∧ (refRun (fun _ => none) [Op.ins (0 : Nat) (5 : Nat), Op.del 256, Op.ins 0 7]).fst
      = [OpResult.insR none, OpResult.delR (Except.error ()), OpResult.insR (some 5)] := by
  constructor <;> decide

/-- Claim C7: for two leaf buckets with depth-aligned sponges,
`Table::with_two_entries` builds a table in which, if the two sponges' next
squeezed bytes differ, each leaf sits at the slot indexed by its own squeezed
byte; if the bytes are equal, the slot at that byte holds a branch built by
the same construction one level deeper; and every other slot is null. -/
theorem c7_with_two_entries_shape (fuel : Nat) (e1 e2 : Entry K V) (s1 s2 : Sponge)
    (t : Table K V) (halign : s1.cursor = s2.cursor)
    (h : Table.with_two_entries (fuel + 1) (Bucket.leaf e1) s1 (Bucket.leaf e2) s2
        = some t) :
    (s1.out ≠ s2.out →
      t s1.out = Bucket.leaf e1 ∧ t s2.out = Bucket.leaf e2 ∧
        ∀ j, j ≠ s1.out → j ≠ s2.out → t j = Bucket.null)
    ∧ (s1.out = s2.out →
      ∃ t2, Table.with_two_entries fuel (Bucket.leaf e1) s1.adv (Bucket.leaf e2) s2.adv
          = some t2
        ∧ t s1.out = Bucket.branch t2 ∧ ∀ j, j ≠ s1.out → t j = Bucket.null) := by
  constructor
  · intro hne
    rw [Table.with_two_entries, if_pos hne] at h
    obtain rfl : setSlot (setSlot Table.default s1.out (Bucket.leaf e1)) s2.out
        (Bucket.leaf e2) = t := by injection h
    refine ⟨?_, ?_, ?_⟩
    · rw [setSlot_other _ _ _ _ hne, setSlot_same]
    · rw [setSlot_same]
    · intro j hj1 hj2
      rw [setSlot_other _ _ _ _ hj2, setSlot_other _ _ _ _ hj1]
      rfl
  · intro heq
    rw [Table.with_two_entries, if_neg (by simpa using heq)] at h
    obtain ⟨t2, ht2, hmap⟩ := Option.map_eq_some'.mp h
    refine ⟨t2, ht2, ?_, ?_⟩
    · rw [← hmap, setSlot_same]
    · intro j hj
      rw [← hmap, setSlot_other _ _ _ _ hj]
      rfl

/-- Witness for claim C7 at a concrete input: constant digests `0` and `1`
diverge at the first squeeze. -/
theorem c7_with_two_entries_shape_witness :
    ((⟨fun _ => 0, 0⟩ : Sponge).cursor = (⟨fun _ => 1, 0⟩ : Sponge).cursor)
    ∧ (Table.with_two_entries 1 (Bucket.leaf (⟨0, some 5⟩ : Entry Nat Nat))
          ⟨fun _ => 0, 0⟩ (Bucket.leaf ⟨1, some 7⟩) ⟨fun _ => 1, 0⟩
        = some ((Table.with_two_entries 1 (Bucket.leaf (⟨0, some 5⟩ : Entry Nat Nat))
            ⟨fun _ => 0, 0⟩ (Bucket.leaf ⟨1, some 7⟩) ⟨fun _ => 1, 0⟩).getD
              Table.default))
    ∧ (((⟨fun _ => 0, 0⟩ : Sponge).out ≠ (⟨fun _ => 1, 0⟩ : Sponge).out →
        ((Table.with_two_entries 1 (Bucket.leaf (⟨0, some 5⟩ : Entry Nat Nat))
            ⟨fun _ => 0, 0⟩ (Bucket.leaf ⟨1, some 7⟩) ⟨fun _ => 1, 0⟩).getD
              Table.default) (⟨fun _ => 0, 0⟩ : Sponge).out = Bucket.leaf ⟨0, some 5⟩
        ∧ ((Table.with_two_entries 1 (Bucket.leaf (⟨0, some 5⟩ : Entry Nat Nat))
            ⟨fun _ => 0, 0⟩ (Bucket.leaf ⟨1, some 7⟩) ⟨fun _ => 1, 0⟩).getD
              Table.default) (⟨fun _ => 1, 0⟩ : Sponge).out = Bucket.leaf ⟨1, some 7⟩
        ∧ ∀ j, j ≠ (⟨fun _ => 0, 0⟩ : Sponge).out → j ≠ (⟨fun _ => 1, 0⟩ : Sponge).out →
            ((Table.with_two_entries 1 (Bucket.leaf (⟨0, some 5⟩ : Entry Nat Nat))
                ⟨fun _ => 0, 0⟩ (Bucket.leaf ⟨1, some 7⟩) ⟨fun _ => 1, 0⟩).getD
                  Table.default) j = Bucket.null)
      ∧ ((⟨fun _ => 0, 0⟩ : Sponge).out = (⟨fun _ => 1, 0⟩ : Sponge).out →
        ∃ t2, Table.with_two_entries 0 (Bucket.leaf (⟨0, some 5⟩ : Entry Nat Nat))
            (⟨fun _ => 0, 0⟩ : Sponge).adv (Bucket.leaf ⟨1, some 7⟩)
            (⟨fun _ => 1, 0⟩ : Sponge).adv = some t2
          ∧ ((Table.with_two_entries 1 (Bucket.leaf (⟨0, some 5⟩ : Entry Nat Nat))
              ⟨fun _ => 0, 0⟩ (Bucket.leaf ⟨1, some 7⟩) ⟨fun _ => 1, 0⟩).getD
                Table.default) (⟨fun _ => 0, 0⟩ : Sponge).out = Bucket.branch t2
          ∧ ∀ j, j ≠ (⟨fun _ => 0, 0⟩ : Sponge).out →
              ((Table.with_two_entries 1 (Bucket.leaf (⟨0, some 5⟩ : Entry Nat Nat))
                  ⟨fun _ => 0, 0⟩ (Bucket.leaf ⟨1, some 7⟩) ⟨fun _ => 1, 0⟩).getD
                    Table.default) j = Bucket.null)) :=
  ⟨rfl, rfl,
    c7_with_two_entries_shape 0 ⟨0, some 5⟩ ⟨1, some 7⟩ ⟨fun _ => 0, 0⟩ ⟨fun _ => 1, 0⟩
      _ rfl rfl⟩

/-- Claim C8: if the two depth-aligned sponges produce differing bytes at some
position `p` at or after their cursors, `Table::with_two_entries` terminates
(returns `some`), and the recursion depth is bounded by that position: fuel
`p - cursor + 1` (one table per level up to the first differing byte)
suffices. -/
theorem c8_with_two_entries_terminates (p : Nat) (b1 b2 : Bucket K V) :
    ∀ (fuel : Nat) (s1 s2 : Sponge), s1.cursor = s2.cursor → s1.cursor ≤ p →
      s1.digest p ≠ s2.digest p → p - s1.cursor < fuel →
      (Table.with_two_entries fuel b1 s1 b2 s2).isSome := by
  intro fuel
  induction fuel with
  | zero => intro s1 s2 _ _ _ hfuel; omega
  | succ n ih =>
    intro s1 s2 halign hp hdiff hfuel
    by_cases hout : s1.out = s2.out
    · have hpc : s1.cursor ≠ p := by
        intro hc
        apply hdiff
        have h2 : s2.digest s2.cursor = s2.digest p := by rw [← halign, hc]
        calc s1.digest p = s1.out := by rw [Sponge.out, hc]
          _ = s2.out := hout
          _ = s2.digest p := by rw [Sponge.out, h2]
      rw [Table.with_two_entries, if_neg (by simpa using hout)]
      rw [Option.isSome_map']
      exact ih s1.adv s2.adv (by simp [Sponge.adv, halign])
        (by simp [Sponge.adv]; omega) hdiff (by simp [Sponge.adv]; omega)
    · rw [Table.with_two_entries, if_pos hout]
      rfl

/-- Witness for claim C8 at a concrete input: constant digests `0` and `1`
differ already at position `0`, so fuel `1` suffices. -/
theorem c8_with_two_entries_terminates_witness :
    ((⟨fun _ => 0, 0⟩ : Sponge).cursor = (⟨fun _ => 1, 0⟩ : Sponge).cursor)
    ∧ ((⟨fun _ => 0, 0⟩ : Sponge).cursor ≤ 0)
    ∧ ((⟨fun _ => 0, 0⟩ : Sponge).digest 0 ≠ (⟨fun _ => 1, 0⟩ : Sponge).digest 0)
    ∧ (0 - (⟨fun _ => 0, 0⟩ : Sponge).cursor < 1)
    ∧ (Table.with_two_entries 1 (Bucket.leaf (⟨0, some 5⟩ : Entry Nat Nat))
        ⟨fun _ => 0, 0⟩ (Bucket.leaf ⟨1, some 7⟩) ⟨fun _ => 1, 0⟩).isSome :=
  ⟨rfl, by decide, by decide, by decide,
    c8_with_two_entries_terminates 0 (Bucket.leaf ⟨0, some 5⟩) (Bucket.leaf ⟨1, some 7⟩)
      1 ⟨fun _ => 0, 0⟩ ⟨fun _ => 1, 0⟩ rfl (by decide) (by decide) (by decide)⟩

/-- Branch monotonicity between two bucket states: wherever the old state has
a branch, the new state still has a branch, recursively slot by slot
(spec Invariant 2). -/
def branchPres : Bucket K V → Bucket K V → Prop
  | .branch bs, .branch bs2 => ∀ i, branchPres (bs i) (bs2 i)
  | .branch _, _ => False
  | _, _ => True

theorem branchPres_refl : ∀ b : Bucket K V, branchPres b b := by
  intro b
  induction b with
  | null => trivial
  | leaf e => trivial
  | branch bs ih => exact ih

theorem branchPres_trans :
    ∀ a b c : Bucket K V, branchPres a b → branchPres b c → branchPres a c := by
  intro a
  induction a with
  | null => intros; trivial
  | leaf e => intros; trivial
  | branch bs ih =>
    intro b c hab hbc
    cases b with
    | null => exact absurd hab (by simp [branchPres])
    | leaf e2 => exact absurd hab (by simp [branchPres])
    | branch bs2 =>
      cases c with
      | null => exact absurd hbc (by simp [branchPres])
      | leaf e3 => exact absurd hbc (by simp [branchPres])
      | branch bs3 =>
        intro i
        exact ih i (bs2 i) (bs3 i) (hab i) (hbc i)

theorem branchPres_setSlot (bs : Fin 256 → Bucket K V) (i : Fin 256)
    (b2 : Bucket K V) (h : branchPres (bs i) b2) :
    branchPres (Bucket.branch bs) (Bucket.branch (setSlot bs i b2)) := by
  intro j
  by_cases hj : j = i
  · subst hj
    rw [setSlot_same]
    exact h
  · rw [setSlot_other _ _ _ _ hj]
    exact branchPres_refl (bs j)

theorem branchPres_insert (H : K → Nat → Fin 256) (fuel : Nat) :
    ∀ (b : Bucket K V) (e : Entry K V) (s : Sponge) (r : Option V) (b2 : Bucket K V),
      Bucket.insert H fuel b e s = some (r, b2) → branchPres b b2 := by
  intro b
  induction b with
  | null => intros; trivial
  | leaf e2 => intros; trivial
  | branch bs ih =>
    intro e s r b2 h
    rw [Bucket.insert, Option.map_eq_some'] at h
    obtain ⟨⟨r2, b3⟩, hrec, heq⟩ := h
    obtain ⟨-, rfl⟩ : r2 = r ∧ Bucket.branch (setSlot bs s.out b3) = b2 := by
      constructor <;> injection heq
    exact branchPres_setSlot bs s.out b3 (ih s.out e s.adv r2 b3 hrec)

theorem branchPres_delete :
    ∀ (b : Bucket K V) (key : K) (s : Sponge),
      branchPres b (Bucket.delete b key s).2 := by
  intro b
  induction b with
  | null => intros; trivial
  | leaf e => intros; trivial
  | branch bs ih =>
    intro key s
    exact branchPres_setSlot bs s.out _ (ih s.out key s.adv)

theorem NestedMap.insert_eq {H : K → Nat → Fin 256} {fuel : Nat}
    {m : NestedMap K V} {k : K} {v : V} {r : Option V} {m2 : NestedMap K V}
    (h : NestedMap.insert H fuel m k v = some (r, m2)) :
    ∃ b2, Bucket.insert H fuel (m.root (Sponge.new H k).out) ⟨k, some v⟩
        (Sponge.new H k).adv = some (r, b2)
      ∧ m2 = ⟨setSlot m.root (Sponge.new H k).out b2⟩ := by
  rw [NestedMap.insert, Table.insert, Option.map_map, Option.map_eq_some'] at h
  obtain ⟨⟨r2, b2⟩, hrec, heq⟩ := h
  obtain ⟨hr, hm⟩ : r2 = r
      ∧ (⟨setSlot m.root (Sponge.new H k).out b2⟩ : NestedMap K V) = m2 := by
    constructor <;> injection heq
  exact ⟨b2, by rw [hrec, hr], hm.symm⟩

theorem NestedMap.delete_eq (H : K → Nat → Fin 256) (m : NestedMap K V) (k : K) :
    NestedMap.delete H m k =
      ((Bucket.delete (m.root (Sponge.new H k).out) k (Sponge.new H k).adv).1,
        ⟨setSlot m.root (Sponge.new H k).out
          (Bucket.delete (m.root (Sponge.new H k).out) k (Sponge.new H k).adv).2⟩) :=
  rfl

theorem NestedMap.lookup_eq (H : K → Nat → Fin 256) (m : NestedMap K V) (k : K) :
    NestedMap.lookup H m k =
      Bucket.lookup (m.root (Sponge.new H k).out) k (Sponge.new H k).adv :=
  rfl

theorem branchPres_applyOp (H : K → Nat → Fin 256) (fuel : Nat)
    (m : NestedMap K V) (op : Op K V) (r : OpResult V) (m2 : NestedMap K V)
    (h : applyOp H fuel m op = some (r, m2)) :
    branchPres (Bucket.branch m.root) (Bucket.branch m2.root) := by
  cases op with
  | ins k v =>
    rw [applyOp, Option.map_eq_some'] at h
    obtain ⟨⟨r2, m3⟩, hins, heq⟩ := h
    obtain ⟨-, rfl⟩ : OpResult.insR r2 = r ∧ m3 = m2 := by
      constructor <;> injection heq
    obtain ⟨b2, hrec, rfl⟩ := NestedMap.insert_eq hins
    exact branchPres_setSlot m.root (Sponge.new H k).out b2
      (branchPres_insert H fuel _ _ _ _ _ hrec)
  | del k =>
    rw [applyOp, Option.some_inj] at h
    obtain ⟨-, rfl⟩ : OpResult.delR (NestedMap.delete H m k).1 = r
        ∧ (NestedMap.delete H m k).2 = m2 := by
      constructor <;> injection h
    rw [NestedMap.delete_eq]
    exact branchPres_setSlot m.root (Sponge.new H k).out _
      (branchPres_delete _ k (Sponge.new H k).adv)
  | look k =>
    rw [applyOp, Option.some_inj] at h
    obtain ⟨-, rfl⟩ : OpResult.lookR (NestedMap.lookup H m k) = r ∧ m = m2 := by
      constructor <;> injection h
    exact branchPres_refl _

/-- Claim C6: once a slot of any table holds a branch, no insert or delete of
any run of operations ever replaces it with null or a leaf — slot by slot,
recursively, the final state still holds a branch wherever the initial state
did (deletion never collapses a sub-trie). -/
theorem c6_branch_slots_monotone (H : K → Nat → Fin 256) (fuel : Nat) :
    ∀ (ops : List (Op K V)) (m : NestedMap K V) (rs : List (OpResult V))
      (m2 : NestedMap K V), runOps H fuel m ops = some (rs, m2) →
      branchPres (Bucket.branch m.root) (Bucket.branch m2.root) := by
  intro ops
  induction ops with
  | nil =>
    intro m rs m2 h
    obtain ⟨-, rfl⟩ : [] = rs ∧ m = m2 := by
      rw [runOps, Option.some_inj] at h
      constructor <;> injection h
    exact branchPres_refl _
  | cons op ops ih =>
    intro m rs m2 h
    rw [runOps, Option.bind_eq_some] at h
    obtain ⟨⟨r1, m1⟩, hop, hrun⟩ := h
    rw [Option.map_eq_some'] at hrun
    obtain ⟨⟨rs2, m3⟩, hrun2, heq⟩ := hrun
    obtain ⟨-, rfl⟩ : r1 :: rs2 = rs ∧ m3 = m2 := by
      constructor <;> injection heq
    exact branchPres_trans _ _ _ (branchPres_applyOp H fuel m op r1 m1 hop)
      (ih m1 rs2 m3 hrun2)

/-- Witness for claim C6 at a concrete input: inserting keys 0 and 256 (whose
digests share byte 0) from the empty map creates a branch at root slot 0, and
the run succeeds. -/
theorem c6_branch_slots_monotone_witness :
    runOps myH 2 (NestedMap.new : NestedMap Nat Nat) [Op.ins 0 5, Op.ins 256 7]
      = some (((runOps myH 2 (NestedMap.new : NestedMap Nat Nat)
          [Op.ins 0 5, Op.ins 256 7]).getD ([], NestedMap.new)).1,
        ((runOps myH 2 (NestedMap.new : NestedMap Nat Nat)
          [Op.ins 0 5, Op.ins 256 7]).getD ([], NestedMap.new)).2)
    ∧ branchPres (Bucket.branch (NestedMap.new : NestedMap Nat Nat).root)
        (Bucket.branch ((runOps myH 2 (NestedMap.new : NestedMap Nat Nat)
          [Op.ins 0 5, Op.ins 256 7]).getD ([], NestedMap.new)).2.root) :=
  ⟨rfl, c6_branch_slots_monotone myH 2 [Op.ins 0 5, Op.ins 256 7] NestedMap.new
    ((runOps myH 2 (NestedMap.new : NestedMap Nat Nat)
      [Op.ins 0 5, Op.ins 256 7]).getD ([], NestedMap.new)).1
    ((runOps myH 2 (NestedMap.new : NestedMap Nat Nat)
      [Op.ins 0 5, Op.ins 256 7]).getD ([], NestedMap.new)).2 (by rfl)⟩

/-- Every entry reachable in a bucket carries a present value
(spec §9, audit item 3). -/
def allSomeB : Bucket K V → Prop
  | .null => True
  | .leaf e => ∃ v, e.value = some v
  | .branch bs => ∀ i, allSomeB (bs i)

theorem allSomeB_setSlot {bs : Fin 256 → Bucket K V} {i : Fin 256} {b2 : Bucket K V}
    (hbs : ∀ j, allSomeB (bs j)) (hb2 : allSomeB b2) :
    ∀ j, allSomeB (setSlot bs i b2 j) := by
  intro j
  by_cases hj : j = i
  · subst hj
    rw [setSlot_same]
    exact hb2
  · rw [setSlot_other _ _ _ _ hj]
    exact hbs j

theorem allSomeB_default : ∀ j, allSomeB ((Table.default : Table K V) j) := by
  intro j
  trivial

theorem allSomeB_with_two_entries :
    ∀ (fuel : Nat) (b1 : Bucket K V) (s1 : Sponge) (b2 : Bucket K V) (s2 : Sponge)
      (t : Table K V), Table.with_two_entries fuel b1 s1 b2 s2 = some t →
      allSomeB b1 → allSomeB b2 → ∀ j, allSomeB (t j) := by
  intro fuel
  induction fuel with
  | zero =>
    intro b1 s1 b2 s2 t h
    exact absurd h (by simp [Table.with_two_entries])
  | succ n ih =>
    intro b1 s1 b2 s2 t h h1 h2
    rw [Table.with_two_entries] at h
    by_cases hout : s1.out = s2.out
    · rw [if_neg (by simpa using hout), Option.map_eq_some'] at h
      obtain ⟨t2, ht2, rfl⟩ := h
      exact allSomeB_setSlot allSomeB_default (ih b1 s1.adv b2 s2.adv t2 ht2 h1 h2)
    · rw [if_pos hout, Option.some_inj] at h
      subst h
      exact allSomeB_setSlot (allSomeB_setSlot allSomeB_default h1) h2

theorem allSomeB_insert (H : K → Nat → Fin 256) (fuel : Nat) :
    ∀ (b : Bucket K V) (e : Entry K V) (s : Sponge) (r : Option V) (b2 : Bucket K V),
      Bucket.insert H fuel b e s = some (r, b2) →
      allSomeB b → (∃ v, e.value = some v) → allSomeB b2 := by
  intro b
  induction b with
  | null =>
    intro e s r b2 h hb he
    obtain ⟨-, rfl⟩ : none = r ∧ Bucket.leaf e = b2 := by
      rw [Bucket.insert, Option.some_inj] at h
      constructor <;> injection h
    exact he
  | leaf e2 =>
    intro e s r b2 h hb he
    rw [Bucket.insert] at h
    by_cases hk : e.key = e2.key
    · rw [if_pos hk, Option.some_inj] at h
      obtain ⟨-, rfl⟩ : ((Bucket.leaf e2).into_value.toOption : Option V) = r
          ∧ Bucket.leaf e = b2 := by
        constructor <;> injection h
      exact he
    · rw [if_neg hk, Option.map_eq_some'] at h
      obtain ⟨t, ht, heq⟩ := h
      obtain ⟨-, rfl⟩ : (none : Option V) = r ∧ Bucket.branch t = b2 := by
        constructor <;> injection heq
      exact allSomeB_with_two_entries fuel _ _ _ _ t ht he hb
  | branch bs ih =>
    intro e s r b2 h hb he
    have hb2 : ∀ i, allSomeB (bs i) := hb
    rw [Bucket.insert, Option.map_eq_some'] at h
    obtain ⟨⟨r2, b3⟩, hrec, heq⟩ := h
    obtain ⟨-, rfl⟩ : r2 = r ∧ Bucket.branch (setSlot bs s.out b3) = b2 := by
      constructor <;> injection heq
    exact allSomeB_setSlot hb2 (ih s.out e s.adv r2 b3 hrec (hb2 s.out) he)

theorem allSomeB_delete :
    ∀ (b : Bucket K V) (key : K) (s : Sponge),
      allSomeB b → allSomeB (Bucket.delete b key s).2 := by
  intro b
  induction b with
  | null => intros; trivial
  | leaf e => intros; trivial
  | branch bs ih =>
    intro key s hb
    exact allSomeB_setSlot hb (ih s.out key s.adv (hb s.out))

theorem allSomeB_applyOp (H : K → Nat → Fin 256) (fuel : Nat)
    (m : NestedMap K V) (op : Op K V) (r : OpResult V) (m2 : NestedMap K V)
    (h : applyOp H fuel m op = some (r, m2)) (hm : ∀ j, allSomeB (m.root j)) :
    ∀ j, allSomeB (m2.root j) := by
  cases op with
  | ins k v =>
    rw [applyOp, Option.map_eq_some'] at h
    obtain ⟨⟨r2, m3⟩, hins, heq⟩ := h
    obtain ⟨-, rfl⟩ : OpResult.insR r2 = r ∧ m3 = m2 := by
      constructor <;> injection heq
    obtain ⟨b2, hrec, rfl⟩ := NestedMap.insert_eq hins
    exact allSomeB_setSlot hm
      (allSomeB_insert H fuel _ _ _ _ _ hrec (hm _) ⟨v, rfl⟩)
  | del k =>
    rw [applyOp, Option.some_inj] at h
    obtain ⟨-, rfl⟩ : OpResult.delR (NestedMap.delete H m k).1 = r
        ∧ (NestedMap.delete H m k).2 = m2 := by
      constructor <;> injection h
    rw [NestedMap.delete_eq]
    exact allSomeB_setSlot hm (allSomeB_delete _ k (Sponge.new H k).adv (hm _))
  | look k =>
    rw [applyOp, Option.some_inj] at h
    obtain ⟨-, rfl⟩ : OpResult.lookR (NestedMap.lookup H m k) = r ∧ m = m2 := by
      constructor <;> injection h
    exact hm

theorem allSomeB_runOps (H : K → Nat → Fin 256) (fuel : Nat) :
    ∀ (ops : List (Op K V)) (m : NestedMap K V) (rs : List (OpResult V))
      (m2 : NestedMap K V), runOps H fuel m ops = some (rs, m2) →
      (∀ j, allSomeB (m.root j)) → ∀ j, allSomeB (m2.root j) := by
  intro ops
  induction ops with
  | nil =>
    intro m rs m2 h hm
    obtain ⟨-, rfl⟩ : [] = rs ∧ m = m2 := by
      rw [runOps, Option.some_inj] at h
      constructor <;> injection h
    exact hm
  | cons op ops ih =>
    intro m rs m2 h hm
    rw [runOps, Option.bind_eq_some] at h
    obtain ⟨⟨r1, m1⟩, hop, hrun⟩ := h
    rw [Option.map_eq_some'] at hrun
    obtain ⟨⟨rs2, m3⟩, hrun2, heq⟩ := hrun
    obtain ⟨-, rfl⟩ : r1 :: rs2 = rs ∧ m3 = m2 := by
      constructor <;> injection heq
    exact ih m1 rs2 m3 hrun2 (allSomeB_applyOp H fuel m op r1 m1 hop hm)

/-- Claim C9: after any sequence of public operations starting from the empty
map, every entry reachable in the map has a present (`Some`) value — insert
only ever publishes entries wrapped as `Some`, `with_two_entries` only moves
published leaves, and delete only writes null — so the `None`-value branches
of lookup, insert and delete never fire for states produced by the public
interface. -/
theorem c9_all_reachable_values_present (H : K → Nat → Fin 256) (fuel : Nat)
    (ops : List (Op K V)) (rs : List (OpResult V)) (m2 : NestedMap K V)
    (h : runOps H fuel NestedMap.new ops = some (rs, m2)) :
    ∀ j, allSomeB (m2.root j) :=
  allSomeB_runOps H fuel ops NestedMap.new rs m2 h allSomeB_default

/-- Witness for claim C9 at a concrete input: the colliding run
`insert 0 5; insert 256 7; delete 0` succeeds and its final state satisfies
the invariant. -/
theorem c9_all_reachable_values_present_witness :
    runOps myH 2 (NestedMap.new : NestedMap Nat Nat)
        [Op.ins 0 5, Op.ins 256 7, Op.del 0]
      = some (((runOps myH 2 (NestedMap.new : NestedMap Nat Nat)
          [Op.ins 0 5, Op.ins 256 7, Op.del 0]).getD ([], NestedMap.new)).1,
        ((runOps myH 2 (NestedMap.new : NestedMap Nat Nat)
          [Op.ins 0 5, Op.ins 256 7, Op.del 0]).getD ([], NestedMap.new)).2)
    ∧ ∀ j, allSomeB (((runOps myH 2 (NestedMap.new : NestedMap Nat Nat)
        [Op.ins 0 5, Op.ins 256 7, Op.del 0]).getD ([], NestedMap.new)).2.root j) :=
  ⟨by rfl, c9_all_reachable_values_present myH 2 [Op.ins 0 5, Op.ins 256 7, Op.del 0]
    ((runOps myH 2 (NestedMap.new : NestedMap Nat Nat)
      [Op.ins 0 5, Op.ins 256 7, Op.del 0]).getD ([], NestedMap.new)).1
    ((runOps myH 2 (NestedMap.new : NestedMap Nat Nat)
      [Op.ins 0 5, Op.ins 256 7, Op.del 0]).getD ([], NestedMap.new)).2 (by rfl)⟩

/-! Lemmas towards claim C5: a deleted key reads as absent until it is
inserted again. -/

theorem Bucket.lookup_delete_self :
    ∀ (b : Bucket K V) (key : K) (s : Sponge),
      Bucket.lookup (Bucket.delete b key s).2 key s = none := by
  intro b
  induction b with
  | null => intro key s; rfl
  | leaf e => intro key s; rfl
  | branch bs ih =>
    intro key s
    show Bucket.lookup (Bucket.branch (setSlot bs s.out _)) key s = none
    rw [Bucket.lookup, setSlot_same]
    exact ih s.out key s.adv

theorem Bucket.lookup_some_of_delete :
    ∀ (b : Bucket K V) (k2 : K) (s2 : Sponge) (key : K) (s : Sponge) (v : V),
      Bucket.lookup (Bucket.delete b k2 s2).2 key s = some v →
      Bucket.lookup b key s = some v := by
  intro b
  induction b with
  | null =>
    intro k2 s2 key s v h
    exact absurd h (by simp [Bucket.delete, Bucket.lookup])
  | leaf e =>
    intro k2 s2 key s v h
    exact absurd h (by simp [Bucket.delete, Bucket.lookup])
  | branch bs ih =>
    intro k2 s2 key s v h
    rw [show (Bucket.delete (Bucket.branch bs) k2 s2).2
        = Bucket.branch (setSlot bs s2.out (Bucket.delete (bs s2.out) k2 s2.adv).2)
      from rfl, Bucket.lookup] at h
    rw [Bucket.lookup]
    by_cases hss : s.out = s2.out
    · rw [hss, setSlot_same] at h
      rw [hss]
      exact ih s2.out k2 s2.adv key s.adv v h
    · rwa [setSlot_other _ _ _ _ hss] at h

theorem Bucket.lookup_leaf_sponge_free (e : Entry K V) (key : K) (s s2 : Sponge) :
    Bucket.lookup (Bucket.leaf e) key s = Bucket.lookup (Bucket.leaf e) key s2 :=
  rfl

theorem with_two_entries_lookup_none (key : K) :
    ∀ (fuel : Nat) (b1 : Bucket K V) (s1 : Sponge) (b2 : Bucket K V) (s2 : Sponge)
      (t : Table K V), Table.with_two_entries fuel b1 s1 b2 s2 = some t →
      (∀ s, Bucket.lookup b1 key s = none) →
      (∀ s, Bucket.lookup b2 key s = none) →
      ∀ s, Bucket.lookup (Bucket.branch t) key s = none := by
  intro fuel
  induction fuel with
  | zero =>
    intro b1 s1 b2 s2 t h
    exact absurd h (by simp [Table.with_two_entries])
  | succ n ih =>
    intro b1 s1 b2 s2 t h h1 h2 s
    rw [Table.with_two_entries] at h
    rw [Bucket.lookup]
    by_cases hout : s1.out = s2.out
    · rw [if_neg (by simpa using hout), Option.map_eq_some'] at h
      obtain ⟨t2, ht2, rfl⟩ := h
      by_cases hs : s.out = s1.out
      · rw [hs, setSlot_same]
        exact ih b1 s1.adv b2 s2.adv t2 ht2 h1 h2 s.adv
      · rw [setSlot_other _ _ _ _ hs]
        rfl
    · rw [if_pos hout, Option.some_inj] at h
      subst h
      by_cases hs2 : s.out = s2.out
      · rw [hs2, setSlot_same]
        exact h2 s.adv
      · rw [setSlot_other _ _ _ _ hs2]
        by_cases hs1 : s.out = s1.out
        · rw [hs1, setSlot_same]
          exact h1 s.adv
        · rw [setSlot_other _ _ _ _ hs1]
          rfl

theorem Bucket.lookup_none_insert (H : K → Nat → Fin 256) (fuel : Nat) :
    ∀ (b : Bucket K V) (e : Entry K V) (s2 : Sponge) (key : K) (s : Sponge)
      (r : Option V) (b2 : Bucket K V), key ≠ e.key →
      Bucket.insert H fuel b e s2 = some (r, b2) →
      Bucket.lookup b key s = none → Bucket.lookup b2 key s = none := by
  intro b
  induction b with
  | null =>
    intro e s2 key s r b2 hk h hlk
    obtain ⟨-, rfl⟩ : none = r ∧ Bucket.leaf e = b2 := by
      rw [Bucket.insert, Option.some_inj] at h
      constructor <;> injection h
    simp [Bucket.lookup, hk]
  | leaf e2 =>
    intro e s2 key s r b2 hk h hlk
    rw [Bucket.insert] at h
    by_cases hkk : e.key = e2.key
    · rw [if_pos hkk, Option.some_inj] at h
      obtain ⟨-, rfl⟩ : ((Bucket.leaf e2).into_value.toOption : Option V) = r
          ∧ Bucket.leaf e = b2 := by
        constructor <;> injection h
      simp [Bucket.lookup, hk]
    · rw [if_neg hkk, Option.map_eq_some'] at h
      obtain ⟨t, ht, heq⟩ := h
      obtain ⟨-, rfl⟩ : (none : Option V) = r ∧ Bucket.branch t = b2 := by
        constructor <;> injection heq
      refine with_two_entries_lookup_none key fuel _ _ _ _ t ht ?_ ?_ s
      · intro s3
        simp [Bucket.lookup, hk]
      · intro s3
        rw [Bucket.lookup_leaf_sponge_free e2 key s3 s]
        exact hlk
  | branch bs ih =>
    intro e s2 key s r b2 hk h hlk
    rw [Bucket.insert, Option.map_eq_some'] at h
    obtain ⟨⟨r2, b3⟩, hrec, heq⟩ := h
    obtain ⟨-, rfl⟩ : r2 = r ∧ Bucket.branch (setSlot bs s2.out b3) = b2 := by
      constructor <;> injection heq
    rw [Bucket.lookup] at hlk
    rw [Bucket.lookup]
    by_cases hss : s.out = s2.out
    · rw [hss, setSlot_same]
      rw [hss] at hlk
      exact ih s2.out e s2.adv key s.adv r2 b3 hk hrec hlk
    · rwa [setSlot_other _ _ _ _ hss]

theorem NestedMap.lookup_after_delete_none (H : K → Nat → Fin 256)
    (m : NestedMap K V) (key : K) :
    NestedMap.lookup H (NestedMap.delete H m key).2 key = none := by
  rw [NestedMap.delete_eq, NestedMap.lookup_eq]
  show Bucket.lookup (setSlot m.root (Sponge.new H key).out _ (Sponge.new H key).out)
      key (Sponge.new H key).adv = none
  rw [setSlot_same]
  exact Bucket.lookup_delete_self (m.root (Sponge.new H key).out) key
    (Sponge.new H key).adv

theorem NestedMap.lookup_none_applyOp (H : K → Nat → Fin 256) (fuel : Nat)
    (m : NestedMap K V) (op : Op K V) (r : OpResult V) (m2 : NestedMap K V)
    (key : K) (h : applyOp H fuel m op = some (r, m2))
    (hop : ∀ v, op ≠ Op.ins key v)
    (hlk : NestedMap.lookup H m key = none) :
    NestedMap.lookup H m2 key = none := by
  cases op with
  | ins k2 v =>
    have hk : key ≠ k2 := by
      intro hc
      exact hop v (by rw [hc])
    rw [applyOp, Option.map_eq_some'] at h
    obtain ⟨⟨r2, m3⟩, hins, heq⟩ := h
    obtain ⟨-, rfl⟩ : OpResult.insR r2 = r ∧ m3 = m2 := by
      constructor <;> injection heq
    obtain ⟨b2, hrec, rfl⟩ := NestedMap.insert_eq hins
    rw [NestedMap.lookup_eq] at hlk
    rw [NestedMap.lookup_eq]
    show Bucket.lookup
        (setSlot m.root (Sponge.new H k2).out b2 (Sponge.new H key).out)
        key (Sponge.new H key).adv = none
    by_cases hss : (Sponge.new H key).out = (Sponge.new H k2).out
    · rw [hss, setSlot_same]
      rw [hss] at hlk
      exact Bucket.lookup_none_insert H fuel (m.root (Sponge.new H k2).out)
        ⟨k2, some v⟩ (Sponge.new H k2).adv key (Sponge.new H key).adv r2 b2
        hk hrec hlk
    · rwa [setSlot_other _ _ _ _ hss]
  | del k2 =>
    rw [applyOp, Option.some_inj] at h
    obtain ⟨-, rfl⟩ : OpResult.delR (NestedMap.delete H m k2).1 = r
        ∧ (NestedMap.delete H m k2).2 = m2 := by
      constructor <;> injection h
    rw [NestedMap.delete_eq, NestedMap.lookup_eq]
    rw [NestedMap.lookup_eq] at hlk
    show Bucket.lookup
        (setSlot m.root (Sponge.new H k2).out
          (Bucket.delete (m.root (Sponge.new H k2).out) k2 (Sponge.new H k2).adv).2
          (Sponge.new H key).out)
        key (Sponge.new H key).adv = none
    by_cases hss : (Sponge.new H key).out = (Sponge.new H k2).out
    · rw [hss, setSlot_same]
      rcases hcase : Bucket.lookup
          (Bucket.delete (m.root (Sponge.new H k2).out) k2 (Sponge.new H k2).adv).2
          key (Sponge.new H key).adv with _ | v
      · rfl
      · exfalso
        have := Bucket.lookup_some_of_delete (m.root (Sponge.new H k2).out) k2
          (Sponge.new H k2).adv key (Sponge.new H key).adv v hcase
        rw [hss] at hlk
        rw [hlk] at this
        exact Option.noConfusion this
    · rwa [setSlot_other _ _ _ _ hss]
  | look k2 =>
    rw [applyOp, Option.some_inj] at h
    obtain ⟨-, rfl⟩ : OpResult.lookR (NestedMap.lookup H m k2) = r ∧ m = m2 := by
      constructor <;> injection h
    exact hlk

theorem NestedMap.lookup_none_runOps (H : K → Nat → Fin 256) (fuel : Nat) (key : K) :
    ∀ (ops : List (Op K V)) (m : NestedMap K V) (rs : List (OpResult V))
      (m2 : NestedMap K V), runOps H fuel m ops = some (rs, m2) →
      (∀ op ∈ ops, ∀ v, op ≠ Op.ins key v) →
      NestedMap.lookup H m key = none → NestedMap.lookup H m2 key = none := by
  intro ops
  induction ops with
  | nil =>
    intro m rs m2 h hop hlk
    obtain ⟨-, rfl⟩ : [] = rs ∧ m = m2 := by
      rw [runOps, Option.some_inj] at h
      constructor <;> injection h
    exact hlk
  | cons op ops ih =>
    intro m rs m2 h hop hlk
    rw [runOps, Option.bind_eq_some] at h
    obtain ⟨⟨r1, m1⟩, hop1, hrun⟩ := h
    rw [Option.map_eq_some'] at hrun
    obtain ⟨⟨rs2, m3⟩, hrun2, heq⟩ := hrun
    obtain ⟨-, rfl⟩ : r1 :: rs2 = rs ∧ m3 = m2 := by
      constructor <;> injection heq
    refine ih m1 rs2 m3 hrun2 (fun o ho v => hop o (List.mem_cons_of_mem op ho) v) ?_
    exact NestedMap.lookup_none_applyOp H fuel m op r1 m1 key hop1
      (fun v => hop op (List.mem_cons_self op ops) v) hlk

/-- Claim C5: if `delete k` returns a removed value, then — whatever further
inserts of other keys, deletes and lookups are run — every subsequent
`lookup k` returns `None` until the next `insert k _`. -/
theorem c5_absent_after_delete (H : K → Nat → Fin 256) (fuel : Nat)
    (m : NestedMap K V) (key : K) (v : V) (ops : List (Op K V))
    (rs : List (OpResult V)) (m2 : NestedMap K V)
    (hdel : (NestedMap.delete H m key).1 = Except.ok v)
    (hops : ∀ op ∈ ops, ∀ v2, op ≠ Op.ins key v2)
    (hrun : runOps H fuel (NestedMap.delete H m key).2 ops = some (rs, m2)) :
    NestedMap.lookup H m2 key = none :=
  NestedMap.lookup_none_runOps H fuel key ops (NestedMap.delete H m key).2 rs m2
    hrun hops (NestedMap.lookup_after_delete_none H m key)

/-- Witness for claim C5 at a concrete input: delete key 0 from a map holding
`(0, 5)`, then insert key 1 and look key 0 up; the final lookup of key 0 is
`None`. -/
theorem c5_absent_after_delete_witness :
    ((NestedMap.delete myH
        (⟨setSlot Table.default (myH 0 0) (Bucket.leaf ⟨0, some 5⟩)⟩ :
          NestedMap Nat Nat) 0).1 = Except.ok 5)
    ∧ (∀ op ∈ [Op.ins (1 : Nat) (7 : Nat), Op.look 0], ∀ v2, op ≠ Op.ins 0 v2)
    ∧ (runOps myH 2 (NestedMap.delete myH
          (⟨setSlot Table.default (myH 0 0) (Bucket.leaf ⟨0, some 5⟩)⟩ :
            NestedMap Nat Nat) 0).2 [Op.ins 1 7, Op.look 0]
        = some (((runOps myH 2 (NestedMap.delete myH
            (⟨setSlot Table.default (myH 0 0) (Bucket.leaf ⟨0, some 5⟩)⟩ :
              NestedMap Nat Nat) 0).2 [Op.ins 1 7, Op.look 0]).getD
                ([], NestedMap.new)).1,
          ((runOps myH 2 (NestedMap.delete myH
            (⟨setSlot Table.default (myH 0 0) (Bucket.leaf ⟨0, some 5⟩)⟩ :
              NestedMap Nat Nat) 0).2 [Op.ins 1 7, Op.look 0]).getD
                ([], NestedMap.new)).2))
    ∧ NestedMap.lookup myH
        ((runOps myH 2 (NestedMap.delete myH
          (⟨setSlot Table.default (myH 0 0) (Bucket.leaf ⟨0, some 5⟩)⟩ :
            NestedMap Nat Nat) 0).2 [Op.ins 1 7, Op.look 0]).getD
              ([], NestedMap.new)).2 0 = none :=
  ⟨by rfl,
    by
      intro op hop v2 hc
      subst hc
      simp at hop,
    by rfl,
    c5_absent_after_delete myH 2
      ⟨setSlot Table.default (myH 0 0) (Bucket.leaf ⟨0, some 5⟩)⟩ 0 5
      [Op.ins 1 7, Op.look 0]
      ((runOps myH 2 (NestedMap.delete myH
        (⟨setSlot Table.default (myH 0 0) (Bucket.leaf ⟨0, some 5⟩)⟩ :
          NestedMap Nat Nat) 0).2 [Op.ins 1 7, Op.look 0]).getD
            ([], NestedMap.new)).1
      ((runOps myH 2 (NestedMap.delete myH
        (⟨setSlot Table.default (myH 0 0) (Bucket.leaf ⟨0, some 5⟩)⟩ :
          NestedMap Nat Nat) 0).2 [Op.ins 1 7, Op.look 0]).getD
            ([], NestedMap.new)).2
      (by rfl)
      (by
        intro op hop v2 hc
        subst hc
        simp at hop)
      (by rfl)⟩

end NestedMapModel
